import Mathlib

/-!
Verification of the highlight overlay engine
(`packages/playwright-core/src/server/injected/highlight.ts`).

The TypeScript class `Highlight` keeps a registry of highlight entries,
rebuilds the overlay when an update request differs from what is on
screen, and places tooltips inside the viewport.  The embedding below
models the DOM abstractly: target elements are opaque identifiers
(`Nat`), bounding boxes are integer rectangles supplied by an
environment function, and every DOM interaction the class performs is
recorded in an operation trace (`DOMOp`), so that statements about
"no DOM mutation" and about the write / read / write phase ordering
can be made precise.
-/

namespace Highlight

/-- A bounding rectangle as `getBoundingClientRect` returns it: the
fundamental fields are `x`, `y`, `width`, `height`; `top`, `left`,
`right`, `bottom` are the standard derived accessors. -/
structure DOMRect where
  x : Int
  y : Int
  width : Int
  height : Int
deriving DecidableEq, Repr

def DOMRect.top (r : DOMRect) : Int := r.y

def DOMRect.left (r : DOMRect) : Int := r.x

def DOMRect.right (r : DOMRect) : Int := r.x + r.width

def DOMRect.bottom (r : DOMRect) : Int := r.y + r.height

/-- One registry entry, mirroring the `HighlightEntry` record type of the
source: the borrowed target element, the owned visual box element, the
optional owned tooltip element, the last recorded box and tooltip anchor,
and the tooltip text of the update call that produced the entry. -/
structure HighlightEntry where
  targetElement : Nat
  highlightElement : Nat
  tooltipElement : Option Nat := none
  box : Option DOMRect := none
  tooltipTop : Option Int := none
  tooltipLeft : Option Int := none
  tooltipText : Option String := none
deriving DecidableEq, Repr

/-- Options record `HighlightOptions` of the source: optional tooltip text and color. -/
structure HighlightOptions where
  tooltipText : Option String := none
  color : Option String := none
deriving DecidableEq, Repr

/-- The mutable state of a `Highlight` instance that the update engine
touches: the entry registry plus a fresh-identifier counter standing for
the allocation of new DOM elements. -/
structure HighlightState where
  highlightEntries : List HighlightEntry
  nextId : Nat
deriving DecidableEq, Repr

/-- The platform environment of one update call: the geometry the DOM
would report during the call.  `geom` is `getBoundingClientRect` for the
target elements, `tooltipSize` gives a tooltip element's
`offsetWidth`/`offsetHeight`, and the surface fields are the glass
pane's `offsetWidth`/`offsetHeight`. -/
structure Env where
  geom : Nat → DOMRect
  tooltipSize : Nat → Int × Int
  surfaceWidth : Int
  surfaceHeight : Int

/-- One DOM interaction performed by the engine.  Creation, insertion,
text and style assignments and removals are writes; bounding-box and
size queries are reads. -/
inductive DOMOp where
  | createElement (id : Nat) (tag : String)
  | appendChild (id : Nat)
  | setText (id : Nat) (text : String)
  | setStyle (id : Nat) (prop : String) (value : String)
  | removeElement (id : Nat)
  | readBoundingBox (elem : Nat)
  | readTooltipSize (id : Nat)
  | readSurfaceSize
deriving DecidableEq, Repr

/-- Reads are the geometry queries; everything else mutates the DOM. -/
def DOMOp.isRead : DOMOp → Bool
  | .readBoundingBox _ => true
  | .readTooltipSize _ => true
  | .readSurfaceSize => true
  | _ => false

/-- A style assignment (the only kind of write the paint pass makes). -/
def DOMOp.isStyleWrite : DOMOp → Bool
  | .setStyle _ _ _ => true
  | _ => false

/-- The target of a bounding-box read, if the operation is one. -/
def boxReadTarget : DOMOp → Option Nat
  | .readBoundingBox e => some e
  | _ => none

/-- The text of a `textContent` assignment, if the operation is one. -/
def setTextOf : DOMOp → Option String
  | .setText _ s => some s
  | _ => none

/-- The value of a `backgroundColor` style write, if the operation is one. -/
def bgColorOf : DOMOp → Option String
  | .setStyle _ prop v => if prop = "backgroundColor" then some v else none
  | _ => none

/-- JavaScript truthiness of an optional string: `undefined` and the
empty string are falsy.  The source guards `options.tooltipText` and
`color` with such truthiness tests. -/
def truthy : Option String → Bool
  | none => false
  | some s => !(s == "")

/-- Placement routine `tooltipPosition` of the source, as a pure function of the target
box, the tooltip's measured size and the surface's measured size. -/
def tooltipPosition (box : DOMRect) (tooltipWidth tooltipHeight totalWidth totalHeight : Int) :
    Int × Int :=
  let anchorLeft := box.left
  let anchorLeft :=
    if anchorLeft + tooltipWidth > totalWidth - 5 then totalWidth - tooltipWidth - 5
    else anchorLeft
  let anchorTop := box.bottom + 5
  let anchorTop :=
    if anchorTop + tooltipHeight > totalHeight - 5 then
      if box.top > tooltipHeight + 5 then box.top - tooltipHeight - 5
      else totalHeight - 5 - tooltipHeight
    else anchorTop
  (anchorLeft, anchorTop)

/-- Color resolution at the top of `_innerUpdateHighlight`:
`let color = options.color; if (!color) color = elements.length > 1 ?
'#f6b26b7f' : '#6fa8dc7f'`.  The guard is JavaScript truthiness, so an
absent and an empty-string color both fall back to the count-based
default. -/
def resolveColor (colorOpt : Option String) (numElements : Nat) : String :=
  if truthy colorOpt then colorOpt.getD ""
  else if numElements > 1 then "#f6b26b7f" else "#6fa8dc7f"

/-- The field comparison of `_highlightIsUpToDate`: the freshly measured
box equals the recorded one on `top`, `right`, `bottom` and `left`. -/
def boxEq (box oldBox : DOMRect) : Bool :=
  box.top == oldBox.top && box.right == oldBox.right &&
    box.bottom == oldBox.bottom && box.left == oldBox.left

/-- The index loop of `_highlightIsUpToDate`, run on the element list and
the registry in lock step.  It returns the verdict together with the
bounding-box reads it performed; each iteration compares the stored
tooltip text, the target identity and the recorded box before it reads
the fresh box, and the loop stops at the first mismatch. -/
def upToDateLoop (env : Env) (tooltipText : Option String) :
    List Nat → List HighlightEntry → Bool × List DOMOp
  | [], [] => (true, [])
  | [], _ :: _ => (false, [])
  | _ :: _, [] => (false, [])
  | e :: es, entry :: rest =>
    if tooltipText ≠ entry.tooltipText then (false, [])
    else if e ≠ entry.targetElement then (false, [])
    else
      match entry.box with
      | none => (false, [])
      | some oldBox =>
        let box := env.geom e
        if boxEq box oldBox then
          let r := upToDateLoop env tooltipText es rest
          (r.1, DOMOp.readBoundingBox e :: r.2)
        else (false, [DOMOp.readBoundingBox e])

/-- Check `_highlightIsUpToDate` of the source: a length check followed by the
per-entry loop.  The second component is the call's read trace. -/
def highlightIsUpToDate (env : Env) (st : HighlightState) (elements : List Nat)
    (tooltipText : Option String) : Bool × List DOMOp :=
  if elements.length ≠ st.highlightEntries.length then (false, [])
  else upToDateLoop env tooltipText elements st.highlightEntries

/-- The removals `clearHighlight` performs for one entry: the owned
visual box element and, when present, the owned tooltip element. -/
def entryRemoveOps (entry : HighlightEntry) : List DOMOp :=
  DOMOp.removeElement entry.highlightElement ::
    (match entry.tooltipElement with
     | some tid => [DOMOp.removeElement tid]
     | none => [])

/-- All removals of a `clearHighlight` call, in registry order. -/
def removeOps : List HighlightEntry → List DOMOp
  | [] => []
  | entry :: rest => entryRemoveOps entry ++ removeOps rest

/-- Teardown `clearHighlight` of the source: remove every owned element and empty
the registry. -/
def clearHighlight (st : HighlightState) : HighlightState × List DOMOp :=
  ({ st with highlightEntries := [] }, removeOps st.highlightEntries)

/-- The multiplicity suffix the build pass appends to the tooltip text:
a 1-based index out of the element count when there is more than one
element, nothing otherwise. -/
def tooltipSuffix (i n : Nat) : String :=
  if n > 1 then " [" ++ toString (i + 1) ++ " of " ++ toString n ++ "]" else ""

/-- The build pass of `_innerUpdateHighlight` (phase 1): for each target
in order, create and append a visual box element and, when tooltip text
is requested (truthy), create, append, fill and pre-style a tooltip
element, then push a registry entry carrying the raw requested tooltip
text.  `i` is the loop index and `nid` the next fresh element
identifier; no geometry is read. -/
def buildLoop (tooltipText : Option String) (n : Nat) :
    List Nat → Nat → Nat → List HighlightEntry × Nat × List DOMOp
  | [], _, nid => ([], nid, [])
  | e :: es, i, nid =>
    let hid := nid
    let createOps := [DOMOp.createElement hid "x-pw-highlight", DOMOp.appendChild hid]
    if truthy tooltipText then
      let tid := nid + 1
      let text := tooltipText.getD "" ++ tooltipSuffix i n
      let tooltipOps :=
        [DOMOp.createElement tid "x-pw-tooltip", DOMOp.appendChild tid,
         DOMOp.setText tid text, DOMOp.setStyle tid "top" "0",
         DOMOp.setStyle tid "left" "0", DOMOp.setStyle tid "display" "flex"]
      let entry : HighlightEntry :=
        { targetElement := e, highlightElement := hid,
          tooltipElement := some tid, tooltipText := tooltipText }
      let rest := buildLoop tooltipText n es (i + 1) (nid + 2)
      (entry :: rest.1, rest.2.1, createOps ++ tooltipOps ++ rest.2.2)
    else
      let entry : HighlightEntry :=
        { targetElement := e, highlightElement := hid, tooltipText := tooltipText }
      let rest := buildLoop tooltipText n es (i + 1) (nid + 1)
      (entry :: rest.1, rest.2.1, createOps ++ rest.2.2)

/-- One iteration of the measure pass (phase 2): read the target's
bounding box, store it, and when the entry has a tooltip run
`tooltipPosition` on the tooltip's and the surface's measured sizes and
store the returned anchor.  Read-only. -/
def measureEntry (env : Env) (entry : HighlightEntry) : HighlightEntry × List DOMOp :=
  let box := env.geom entry.targetElement
  match entry.tooltipElement with
  | none =>
    ({ entry with box := some box }, [DOMOp.readBoundingBox entry.targetElement])
  | some tid =>
    let ts := env.tooltipSize tid
    let pos := tooltipPosition box ts.1 ts.2 env.surfaceWidth env.surfaceHeight
    ({ entry with box := some box, tooltipTop := some pos.2, tooltipLeft := some pos.1 },
     [DOMOp.readBoundingBox entry.targetElement, DOMOp.readTooltipSize tid,
      DOMOp.readSurfaceSize])

/-- The measure pass over the whole registry. -/
def measureLoop (env : Env) : List HighlightEntry → List HighlightEntry × List DOMOp
  | [] => ([], [])
  | entry :: rest =>
    let m := measureEntry env entry
    let r := measureLoop env rest
    (m.1 :: r.1, m.2 ++ r.2)

/-- Pixel rendering of a coordinate, as the source's `value + 'px'`. -/
def pxText (v : Int) : String := toString v ++ "px"

/-- One iteration of the paint pass (phase 3): write the tooltip anchor
styles when the entry has a tooltip, then the visual box's color,
position, size and visibility styles.  Write-only, using only values
stored by the measure pass. -/
def paintEntry (color : String) (entry : HighlightEntry) : List DOMOp :=
  (match entry.tooltipElement with
   | some tid =>
     [DOMOp.setStyle tid "top" (pxText (entry.tooltipTop.getD 0)),
      DOMOp.setStyle tid "left" (pxText (entry.tooltipLeft.getD 0))]
   | none => []) ++
  (let box := entry.box.getD { x := 0, y := 0, width := 0, height := 0 }
   [DOMOp.setStyle entry.highlightElement "backgroundColor" color,
    DOMOp.setStyle entry.highlightElement "left" (pxText box.x),
    DOMOp.setStyle entry.highlightElement "top" (pxText box.y),
    DOMOp.setStyle entry.highlightElement "width" (pxText box.width),
    DOMOp.setStyle entry.highlightElement "height" (pxText box.height),
    DOMOp.setStyle entry.highlightElement "display" "block"])

/-- The paint pass over the whole registry. -/
def paintLoop (color : String) : List HighlightEntry → List DOMOp
  | [] => []
  | entry :: rest => paintEntry color entry ++ paintLoop color rest

/-- Engine `_innerUpdateHighlight` of the source: resolve the color, return
untouched when `_highlightIsUpToDate` says the overlay already shows
this request, and otherwise tear the overlay down and run the build,
measure and paint passes.  Returns the new state and the full operation
trace of the call (the up-to-date check's reads included). -/
def innerUpdateHighlight (env : Env) (st : HighlightState) (elements : List Nat)
    (options : HighlightOptions) : HighlightState × List DOMOp :=
  let color := resolveColor options.color elements.length
  let check := highlightIsUpToDate env st elements options.tooltipText
  if check.1 then (st, check.2)
  else
    let cleared := clearHighlight st
    let built := buildLoop options.tooltipText elements.length elements 0 st.nextId
    let measured := measureLoop env built.1
    let painted := paintLoop color measured.1
    ({ highlightEntries := measured.1, nextId := built.2.1 },
     check.2 ++ cleared.2 ++ built.2.2 ++ measured.2 ++ painted)

/-- Entry point `updateHighlight` of the source simply forwards to the inner routine. -/
def updateHighlight (env : Env) (st : HighlightState) (elements : List Nat)
    (options : HighlightOptions) : HighlightState × List DOMOp :=
  innerUpdateHighlight env st elements options

/-- Masking `maskElements` of the source: the same routine with no tooltip text
and `color ? color : '#F0F'` (again a truthiness test) as the color. -/
def maskElements (env : Env) (st : HighlightState) (elements : List Nat)
    (color : Option String) : HighlightState × List DOMOp :=
  innerUpdateHighlight env st elements
    { tooltipText := none,
      color := some (if truthy color then color.getD "" else "#F0F") }

/-- Accessor `firstBox` of the source: `this._highlightEntries[0]?.box`. -/
def firstBox (st : HighlightState) : Option DOMRect :=
  match st.highlightEntries with
  | [] => none
  | entry :: _ => entry.box

/-- The per-position up-to-date condition of claim C1, spelled on one
element/entry pair: the entry stores the requested tooltip text, the
element is (reference-)identical to the entry's target, the entry has a
recorded box, and the freshly measured box agrees with it on `top`,
`right`, `bottom` and `left`. -/
def entryCond (env : Env) (tooltipText : Option String) (e : Nat)
    (entry : HighlightEntry) : Prop :=
  entry.tooltipText = tooltipText ∧
  e = entry.targetElement ∧
  ∃ oldBox, entry.box = some oldBox ∧
    (env.geom e).top = oldBox.top ∧ (env.geom e).right = oldBox.right ∧
    (env.geom e).bottom = oldBox.bottom ∧ (env.geom e).left = oldBox.left

/-- The up-to-date condition of claim C1 over the whole call: the element
count matches the registry length and `entryCond` holds at every
position. -/
def upToDateSpec (env : Env) (st : HighlightState) (elements : List Nat)
    (tooltipText : Option String) : Prop :=
  elements.length = st.highlightEntries.length ∧
  ∀ (i : Nat) (h1 : i < elements.length) (h2 : i < st.highlightEntries.length),
    entryCond env tooltipText (elements.get ⟨i, h1⟩)
      (st.highlightEntries.get ⟨i, h2⟩)

/-- The collaborators `runHighlightOnRaf` consumes: the update engine's
environment, the selector-matching function, the selector stringifier
and the locator-text generator with its language tag.  Selectors are
kept as their text. -/
structure LoopEnv where
  env : Env
  querySelectorAll : String → List Nat
  stringifySelector : String → String
  asLocator : String → String → String
  language : String

/-- The state the per-frame loop touches: the highlight state, the
stored frame-request token, the scheduler's pending callbacks (token and
tracked selector) and the scheduler's next token. -/
structure RafState where
  highlight : HighlightState
  rafRequest : Option Nat
  pending : List (Nat × String)
  nextToken : Nat

/-- Scheduler primitive `cancelAnimationFrame`: drop the callback with the given token from
the scheduler's pending list. -/
def cancelAnimationFrame (pending : List (Nat × String)) (t : Nat) :
    List (Nat × String) :=
  pending.filter (fun p => p.1 ≠ t)

/-- Loop body `runHighlightOnRaf` of the source: cancel the stored pending frame
request if any, run one update with the selector's current matches and
the locator-generated tooltip text, then schedule itself again.  The
second component records the update calls performed (their element list
and options). -/
def runHighlightOnRaf (lenv : LoopEnv) (sel : String) (rst : RafState) :
    RafState × List (List Nat × HighlightOptions) :=
  let pending1 :=
    match rst.rafRequest with
    | some t => cancelAnimationFrame rst.pending t
    | none => rst.pending
  let elements := lenv.querySelectorAll sel
  let options : HighlightOptions :=
    { tooltipText := some (lenv.asLocator lenv.language (lenv.stringifySelector sel)) }
  let upd := innerUpdateHighlight lenv.env rst.highlight elements options
  let token := rst.nextToken
  ({ highlight := upd.1, rafRequest := some token,
     pending := pending1 ++ [(token, sel)], nextToken := rst.nextToken + 1 },
   [(elements, options)])

/-- An event on the loop: a `start(selector)` call (which is
`runHighlightOnRaf`) or the scheduler firing the oldest pending frame
callback (which removes it from the pending list and invokes
`runHighlightOnRaf` with its selector). -/
inductive RafEvent where
  | start (sel : String)
  | fire

/-- One step of the loop under an event. -/
def rafStep (lenv : LoopEnv) (rst : RafState) :
    RafEvent → RafState × List (List Nat × HighlightOptions)
  | .start sel => runHighlightOnRaf lenv sel rst
  | .fire =>
    match rst.pending with
    | [] => (rst, [])
    | (_, sel) :: rest => runHighlightOnRaf lenv sel { rst with pending := rest }

/-- The scheduling invariant of the loop: every pending callback's token
is the stored frame-request token (so there is at most one pending
callback, since the list then repeats one token... the length bound is
stated explicitly). -/
def rafInv (rst : RafState) : Prop :=
  rst.pending.length ≤ 1 ∧ ∀ p ∈ rst.pending, rst.rafRequest = some p.1

/-- A concrete environment for witnesses: element `e` sits at
`(e, 2)` with size `10 × 10`, tooltips measure `40 × 20`, the surface
`800 × 600`. -/
def cenv : Env :=
  { geom := fun e => { x := Int.ofNat e, y := 2, width := 10, height := 10 },
    tooltipSize := fun _ => (40, 20),
    surfaceWidth := 800, surfaceHeight := 600 }

/-- The empty starting state for witnesses. -/
def cst0 : HighlightState := { highlightEntries := [], nextId := 0 }

/-- A concrete loop environment for witnesses: selector text `s` matches
the single element `s.length`, stringification and locator generation
are string tagging. -/
def clenv : LoopEnv :=
  { env := cenv,
    querySelectorAll := fun s => [s.length],
    stringifySelector := fun s => s,
    asLocator := fun lang s => lang ++ ":" ++ s,
    language := "javascript" }

/-- The empty loop state for witnesses. -/
def crst0 : RafState :=
  { highlight := cst0, rafRequest := none, pending := [], nextToken := 0 }

/-- C2: the placement function characterised: the left anchor keeps the target's
left edge unless the tooltip would cross the 5-unit right margin, in
which case it is clamped; the top anchor prefers 5 units below the
target, then 5 units above it, then 5 units above the surface bottom.
The final two conjuncts are claim C2's particular consequences. -/
theorem tooltipPosition_cases (box : DOMRect) (w h W H : Int) :
    (tooltipPosition box w h W H).1 =
      (if box.left + w ≤ W - 5 then box.left else W - w - 5) ∧
    (tooltipPosition box w h W H).2 =
      (if box.bottom + 5 + h ≤ H - 5 then box.bottom + 5
       else if box.top > h + 5 then box.top - h - 5 else H - 5 - h) ∧
    (box.left + w > W → (tooltipPosition box w h W H).1 = W - w - 5) ∧
    (box.bottom + 5 + h > H - 5 → box.top ≤ h + 5 →
      (tooltipPosition box w h W H).2 = H - 5 - h) := by
  unfold tooltipPosition
  refine ⟨?_, ?_, ?_, ?_⟩
  · by_cases hl : box.left + w > W - 5 <;> simp [hl] <;> omega
  · by_cases hb : box.bottom + 5 + h > H - 5
    · by_cases ha : box.top > h + 5 <;> simp [hb, ha] <;> omega
    · simp [hb]
      omega
  · intro hover
    have : box.left + w > W - 5 := by omega
    simp [this]
  · intro hb ha
    have ha5 : ¬ box.top > h + 5 := by omega
    simp [hb, ha5]

/-- Condition `entryCond` restated with the Boolean box comparison the check runs. -/
theorem entryCond_iff (env : Env) (t : Option String) (e : Nat) (entry : HighlightEntry) :
    entryCond env t e entry ↔
      (t = entry.tooltipText ∧ e = entry.targetElement ∧
        ∃ oldBox, entry.box = some oldBox ∧ boxEq (env.geom e) oldBox = true) := by
  unfold entryCond boxEq
  constructor
  · rintro ⟨ha, hb, ob, hob, h1, h2, h3, h4⟩
    exact ⟨ha.symm, hb, ob, hob, by simp [h1, h2, h3, h4]⟩
  · rintro ⟨ha, hb, ob, hob, hbeq⟩
    simp only [Bool.and_eq_true, beq_iff_eq] at hbeq
    exact ⟨ha.symm, hb, ob, hob, hbeq.1.1.1, hbeq.1.1.2, hbeq.1.2, hbeq.2⟩

/-- Quantifying over the zip of two lists is quantifying positionally. -/
theorem zip_forall_iff_index {α β : Type} (P : α → β → Prop) :
    ∀ (es : List α) (entries : List β),
      (∀ p ∈ es.zip entries, P p.1 p.2) ↔
        ∀ (i : Nat) (h1 : i < es.length) (h2 : i < entries.length),
          P (es.get ⟨i, h1⟩) (entries.get ⟨i, h2⟩) := by
  intro es
  induction es with
  | nil =>
    intro entries
    constructor
    · intro _ i h1 h2
      exact absurd h1 (by simp)
    · intro _ p hp
      simp at hp
  | cons e es ih =>
    intro entries
    cases entries with
    | nil =>
      constructor
      · intro _ i h1 h2
        exact absurd h2 (by simp)
      · intro _ p hp
        simp at hp
    | cons b bs =>
      rw [List.zip_cons_cons, List.forall_mem_cons, ih]
      constructor
      · rintro ⟨hP, hrest⟩ i h1 h2
        cases i with
        | zero => simpa using hP
        | succ j => simpa using hrest j (by simpa using h1) (by simpa using h2)
      · intro h
        refine ⟨by simpa using h 0 (by simp) (by simp), fun j h1 h2 => ?_⟩
        simpa using h (j + 1) (by simpa using h1) (by simpa using h2)

/-- The up-to-date loop only reads bounding boxes. -/
theorem upToDateLoop_reads (env : Env) (t : Option String) :
    ∀ (es : List Nat) (entries : List HighlightEntry),
      ∀ op ∈ (upToDateLoop env t es entries).2, op.isRead = true := by
  intro es
  induction es with
  | nil =>
    intro entries op hop
    cases entries <;> simp [upToDateLoop] at hop
  | cons e es ih =>
    intro entries op hop
    cases entries with
    | nil => simp [upToDateLoop] at hop
    | cons entry rest =>
      simp only [upToDateLoop] at hop
      split_ifs at hop with h1 h2
      · simp at hop
      · simp at hop
      · revert hop
        cases hbox : entry.box with
        | none => intro hop; simp at hop
        | some oldBox =>
          intro hop
          by_cases h3 : boxEq (env.geom e) oldBox = true
          · simp only [h3, if_pos] at hop
            rcases List.mem_cons.mp hop with h | h
            · subst h; rfl
            · exact ih rest op h
          · simp only [h3] at hop
            simp at hop
            subst hop
            rfl

/-- The up-to-date loop's verdict, when the lists have equal length, is
exactly that `entryCond` holds at every position of the zip. -/
theorem upToDateLoop_true_iff (env : Env) (t : Option String) :
    ∀ (es : List Nat) (entries : List HighlightEntry),
      es.length = entries.length →
      ((upToDateLoop env t es entries).1 = true ↔
        ∀ p ∈ es.zip entries, entryCond env t p.1 p.2) := by
  intro es
  induction es with
  | nil =>
    intro entries hlen
    cases entries with
    | nil => simp [upToDateLoop]
    | cons _ _ => simp at hlen
  | cons e es ih =>
    intro entries hlen
    cases entries with
    | nil => simp at hlen
    | cons entry rest =>
      have hlen' : es.length = rest.length := by simpa using hlen
      rw [List.zip_cons_cons, List.forall_mem_cons]
      by_cases h1 : t = entry.tooltipText
      · by_cases h2 : e = entry.targetElement
        · subst h1
          subst h2
          cases hbox : entry.box with
          | none =>
            have hfalse :
                (upToDateLoop env entry.tooltipText
                  (entry.targetElement :: es) (entry :: rest)).1 = false := by
              simp [upToDateLoop, hbox]
            rw [hfalse]
            simp only [Bool.false_eq_true, false_iff]
            intro hcon
            rcases ((entryCond_iff env entry.tooltipText entry.targetElement entry).mp
              hcon.1).2.2 with ⟨ob, hob, _⟩
            rw [hbox] at hob
            exact Option.noConfusion hob
          | some oldBox =>
            by_cases h3 : boxEq (env.geom entry.targetElement) oldBox = true
            · have hstep :
                  (upToDateLoop env entry.tooltipText
                    (entry.targetElement :: es) (entry :: rest)).1 =
                    (upToDateLoop env entry.tooltipText es rest).1 := by
                simp [upToDateLoop, hbox, h3]
              rw [hstep, ih rest hlen']
              simp [entryCond_iff, hbox, h3]
            · have hfalse :
                  (upToDateLoop env entry.tooltipText
                    (entry.targetElement :: es) (entry :: rest)).1 = false := by
                simp [upToDateLoop, hbox, h3]
              rw [hfalse]
              simp only [Bool.false_eq_true, false_iff]
              intro hcon
              rcases ((entryCond_iff env entry.tooltipText entry.targetElement entry).mp
                hcon.1).2.2 with ⟨ob, hob, hbeq⟩
              rw [hbox] at hob
              cases hob
              exact h3 hbeq
        · have hfalse : (upToDateLoop env t (e :: es) (entry :: rest)).1 = false := by
            simp [upToDateLoop, h1, h2]
          rw [hfalse]
          simp only [Bool.false_eq_true, false_iff]
          intro hcon
          exact h2 ((entryCond_iff env t e entry).mp hcon.1).2.1
      · have hfalse : (upToDateLoop env t (e :: es) (entry :: rest)).1 = false := by
          simp [upToDateLoop, h1]
        rw [hfalse]
        simp only [Bool.false_eq_true, false_iff]
        intro hcon
        exact h1 ((entryCond_iff env t e entry).mp hcon.1).1

/-- The up-to-date check only reads. -/
theorem highlightIsUpToDate_reads (env : Env) (st : HighlightState)
    (elements : List Nat) (t : Option String) :
    ∀ op ∈ (highlightIsUpToDate env st elements t).2, op.isRead = true := by
  intro op hop
  unfold highlightIsUpToDate at hop
  split_ifs at hop with h
  · simp at hop
  · exact upToDateLoop_reads env t elements st.highlightEntries op hop

/-- The check's verdict is exactly claim C1's up-to-date condition. -/
theorem highlightIsUpToDate_true_iff (env : Env) (st : HighlightState)
    (elements : List Nat) (t : Option String) :
    (highlightIsUpToDate env st elements t).1 = true ↔
      upToDateSpec env st elements t := by
  unfold highlightIsUpToDate upToDateSpec
  by_cases h : elements.length = st.highlightEntries.length
  · rw [if_neg (fun hne => hne h)]
    rw [upToDateLoop_true_iff env t elements st.highlightEntries h]
    rw [zip_forall_iff_index]
    exact ⟨fun hall => ⟨h, hall⟩, fun hc => hc.2⟩
  · rw [if_pos h]
    simp only [Bool.false_eq_true, false_iff]
    intro hc
    exact h hc.1

/-- When the check succeeds, the call returns with the current state and
only the check's reads as its trace. -/
theorem innerUpdate_noop (env : Env) (st : HighlightState) (elements : List Nat)
    (options : HighlightOptions)
    (h : (highlightIsUpToDate env st elements options.tooltipText).1 = true) :
    innerUpdateHighlight env st elements options =
      (st, (highlightIsUpToDate env st elements options.tooltipText).2) := by
  simp [innerUpdateHighlight, h]

/-- When the check fails, the call runs teardown, build, measure and
paint, in that order. -/
theorem innerUpdate_rebuild (env : Env) (st : HighlightState) (elements : List Nat)
    (options : HighlightOptions)
    (h : (highlightIsUpToDate env st elements options.tooltipText).1 = false) :
    innerUpdateHighlight env st elements options =
      ({ highlightEntries :=
           (measureLoop env
             (buildLoop options.tooltipText elements.length elements 0 st.nextId).1).1,
         nextId :=
           (buildLoop options.tooltipText elements.length elements 0 st.nextId).2.1 },
       (highlightIsUpToDate env st elements options.tooltipText).2 ++
         removeOps st.highlightEntries ++
         (buildLoop options.tooltipText elements.length elements 0 st.nextId).2.2 ++
         (measureLoop env
           (buildLoop options.tooltipText elements.length elements 0 st.nextId).1).2 ++
         paintLoop (resolveColor options.color elements.length)
           (measureLoop env
             (buildLoop options.tooltipText elements.length elements 0 st.nextId).1).1) := by
  simp [innerUpdateHighlight, clearHighlight, h]

/-- The build pass creates one registry entry per element. -/
theorem buildLoop_length (t : Option String) (n : Nat) :
    ∀ (es : List Nat) (i nid : Nat), ((buildLoop t n es i nid).1).length = es.length := by
  intro es
  induction es with
  | nil => intro i nid; simp [buildLoop]
  | cons e es ih =>
    intro i nid
    by_cases ht : truthy t = true <;> simp [buildLoop, ht, ih]

/-- The build pass's entries carry the elements, in order. -/
theorem buildLoop_map_target (t : Option String) (n : Nat) :
    ∀ (es : List Nat) (i nid : Nat),
      ((buildLoop t n es i nid).1).map (fun entry => entry.targetElement) = es := by
  intro es
  induction es with
  | nil => intro i nid; simp [buildLoop]
  | cons e es ih =>
    intro i nid
    by_cases ht : truthy t = true <;> simp [buildLoop, ht, ih]

/-- Every entry the build pass pushes stores the raw requested tooltip
text. -/
theorem buildLoop_mem_tooltipText (t : Option String) (n : Nat) :
    ∀ (es : List Nat) (i nid : Nat),
      ∀ entry ∈ (buildLoop t n es i nid).1, entry.tooltipText = t := by
  intro es
  induction es with
  | nil => intro i nid entry h; simp [buildLoop] at h
  | cons e es ih =>
    intro i nid entry h
    by_cases ht : truthy t = true <;>
      · simp only [buildLoop, ht] at h
        simp at h
        rcases h with h | h
        · subst h; rfl
        · exact ih _ _ entry h

/-- The measure pass is a map over the registry. -/
theorem measureLoop_fst (env : Env) :
    ∀ entries : List HighlightEntry,
      (measureLoop env entries).1 = entries.map (fun e => (measureEntry env e).1) := by
  intro entries
  induction entries with
  | nil => simp [measureLoop]
  | cons entry rest ih => simp [measureLoop, ih]

/-- Measuring keeps the target. -/
theorem measureEntry_target (env : Env) (entry : HighlightEntry) :
    (measureEntry env entry).1.targetElement = entry.targetElement := by
  cases h : entry.tooltipElement <;> simp [measureEntry, h]

/-- Measuring keeps the stored tooltip text. -/
theorem measureEntry_tooltipText (env : Env) (entry : HighlightEntry) :
    (measureEntry env entry).1.tooltipText = entry.tooltipText := by
  cases h : entry.tooltipElement <;> simp [measureEntry, h]

/-- Measuring keeps the tooltip element. -/
theorem measureEntry_tooltipElement (env : Env) (entry : HighlightEntry) :
    (measureEntry env entry).1.tooltipElement = entry.tooltipElement := by
  cases h : entry.tooltipElement <;> simp [measureEntry, h]

/-- Measuring records the target's freshly read box. -/
theorem measureEntry_box (env : Env) (entry : HighlightEntry) :
    (measureEntry env entry).1.box = some (env.geom entry.targetElement) := by
  cases h : entry.tooltipElement <;> simp [measureEntry, h]

/-- After build and measure, the registry's targets are the elements. -/
theorem rebuild_entries_target (env : Env) (t : Option String) (n : Nat)
    (es : List Nat) (i nid : Nat) :
    ((measureLoop env (buildLoop t n es i nid).1).1).map
      (fun e => e.targetElement) = es := by
  rw [measureLoop_fst, List.map_map]
  have hc : ((fun e : HighlightEntry => e.targetElement) ∘
      fun e => (measureEntry env e).1) = fun e : HighlightEntry => e.targetElement :=
    funext fun e => measureEntry_target env e
  rw [hc]
  exact buildLoop_map_target t n es i nid

/-- Zipping a mapped list with its source pairs each image with its
preimage. -/
theorem zip_map_self {α β : Type} (f : β → α) :
    ∀ (entries : List β) (es : List α), entries.map f = es →
      ∀ p ∈ es.zip entries, p.1 = f p.2 := by
  intro entries
  induction entries with
  | nil =>
    intro es h p hp
    rw [← h] at hp
    simp at hp
  | cons b bs ih =>
    intro es h p hp
    subst h
    rw [List.map_cons, List.zip_cons_cons] at hp
    rcases List.mem_cons.mp hp with h | h
    · subst h; rfl
    · exact ih (bs.map f) rfl p h

/-- After a rebuild, the up-to-date condition holds at every position
(with the geometry of the same environment). -/
theorem rebuilt_entryCond (env : Env) (t : Option String) (n : Nat)
    (es : List Nat) (i nid : Nat) :
    ∀ p ∈ es.zip (measureLoop env (buildLoop t n es i nid).1).1,
      entryCond env t p.1 p.2 := by
  intro p hp
  have hmap := rebuild_entries_target env t n es i nid
  have hpt : p.1 = p.2.targetElement :=
    zip_map_self (fun e => e.targetElement) _ es hmap p hp
  have hmem : p.2 ∈ (measureLoop env (buildLoop t n es i nid).1).1 :=
    (List.of_mem_zip hp).2
  rw [measureLoop_fst] at hmem
  rcases List.mem_map.mp hmem with ⟨b, hb, hpb⟩
  have hbt : p.2.targetElement = b.targetElement := by
    rw [← hpb]; exact measureEntry_target env b
  have hbox : p.2.box = some (env.geom p.1) := by
    rw [← hpb, measureEntry_box, ← hbt, ← hpt]
  refine ⟨?_, hpt, env.geom p.1, hbox, rfl, rfl, rfl, rfl⟩
  rw [← hpb, measureEntry_tooltipText]
  exact buildLoop_mem_tooltipText t n es i nid b hb

/-- Every completed update call leaves a state that satisfies the
up-to-date condition for the same elements, the same tooltip text and
unchanged geometry. -/
theorem update_upToDateSpec (env : Env) (st : HighlightState) (elements : List Nat)
    (options : HighlightOptions) :
    upToDateSpec env (innerUpdateHighlight env st elements options).1 elements
      options.tooltipText := by
  by_cases hch : (highlightIsUpToDate env st elements options.tooltipText).1 = true
  · rw [innerUpdate_noop env st elements options hch]
    exact (highlightIsUpToDate_true_iff env st elements options.tooltipText).mp hch
  · have hch' : (highlightIsUpToDate env st elements options.tooltipText).1 = false :=
      Bool.eq_false_iff.mpr hch
    rw [innerUpdate_rebuild env st elements options hch']
    constructor
    · show elements.length = ((measureLoop env _).1).length
      rw [measureLoop_fst, List.length_map, buildLoop_length]
    · rw [← zip_forall_iff_index]
      exact rebuilt_entryCond env options.tooltipText elements.length elements 0 st.nextId

/-- A style write is not a read. -/
theorem styleWrite_not_read (op : DOMOp) (h : op.isStyleWrite = true) :
    op.isRead = false := by
  cases op <;> simp [DOMOp.isStyleWrite] at h ⊢ <;> rfl

/-- A non-read performs no bounding-box read. -/
theorem boxReadTarget_none_of_write (op : DOMOp) (h : op.isRead = false) :
    boxReadTarget op = none := by
  cases op <;> simp [DOMOp.isRead] at h ⊢ <;> rfl

/-- A read assigns no text. -/
theorem setTextOf_none_of_read (op : DOMOp) (h : op.isRead = true) :
    setTextOf op = none := by
  cases op <;> simp [DOMOp.isRead] at h ⊢ <;> rfl

/-- A read writes no background color. -/
theorem bgColorOf_none_of_read (op : DOMOp) (h : op.isRead = true) :
    bgColorOf op = none := by
  cases op <;> simp [DOMOp.isRead] at h ⊢ <;> rfl

/-- Teardown only removes elements, which are writes. -/
theorem removeOps_not_read :
    ∀ entries : List HighlightEntry, ∀ op ∈ removeOps entries, op.isRead = false := by
  intro entries
  induction entries with
  | nil => intro op hop; simp [removeOps] at hop
  | cons entry rest ih =>
    intro op hop
    rw [removeOps, List.mem_append] at hop
    rcases hop with h | h
    · unfold entryRemoveOps at h
      rcases List.mem_cons.mp h with h2 | h2
      · subst h2; rfl
      · cases hto : entry.tooltipElement with
        | none => rw [hto] at h2; simp at h2
        | some tid =>
          rw [hto] at h2
          simp at h2
          subst h2; rfl
    · exact ih op h

/-- Teardown assigns no text. -/
theorem removeOps_setText_none :
    ∀ entries : List HighlightEntry, ∀ op ∈ removeOps entries, setTextOf op = none := by
  intro entries
  induction entries with
  | nil => intro op hop; simp [removeOps] at hop
  | cons entry rest ih =>
    intro op hop
    rw [removeOps, List.mem_append] at hop
    rcases hop with h | h
    · unfold entryRemoveOps at h
      rcases List.mem_cons.mp h with h2 | h2
      · subst h2; rfl
      · cases hto : entry.tooltipElement with
        | none => rw [hto] at h2; simp at h2
        | some tid =>
          rw [hto] at h2
          simp at h2
          subst h2; rfl
    · exact ih op h

/-- Teardown writes no background color. -/
theorem removeOps_bg_none :
    ∀ entries : List HighlightEntry, ∀ op ∈ removeOps entries, bgColorOf op = none := by
  intro entries
  induction entries with
  | nil => intro op hop; simp [removeOps] at hop
  | cons entry rest ih =>
    intro op hop
    rw [removeOps, List.mem_append] at hop
    rcases hop with h | h
    · unfold entryRemoveOps at h
      rcases List.mem_cons.mp h with h2 | h2
      · subst h2; rfl
      · cases hto : entry.tooltipElement with
        | none => rw [hto] at h2; simp at h2
        | some tid =>
          rw [hto] at h2
          simp at h2
          subst h2; rfl
    · exact ih op h

/-- The build pass performs no read. -/
theorem buildLoop_not_read (t : Option String) (n : Nat) :
    ∀ (es : List Nat) (i nid : Nat),
      ∀ op ∈ (buildLoop t n es i nid).2.2, op.isRead = false := by
  intro es
  induction es with
  | nil => intro i nid op hop; simp [buildLoop] at hop
  | cons e es ih =>
    intro i nid op hop
    by_cases ht : truthy t = true
    · simp only [buildLoop, ht, if_pos] at hop
      simp at hop
      rcases hop with h | h | h | h | h | h | h | h | h
      all_goals first
        | (subst h; rfl)
        | (exact ih _ _ op h)
    · simp only [buildLoop, ht] at hop
      simp at hop
      rcases hop with h | h | h
      all_goals first
        | (subst h; rfl)
        | (exact ih _ _ op h)

/-- The build pass writes no background color. -/
theorem buildLoop_bg_none (t : Option String) (n : Nat) :
    ∀ (es : List Nat) (i nid : Nat),
      ∀ op ∈ (buildLoop t n es i nid).2.2, bgColorOf op = none := by
  intro es
  induction es with
  | nil => intro i nid op hop; simp [buildLoop] at hop
  | cons e es ih =>
    intro i nid op hop
    by_cases ht : truthy t = true
    · simp only [buildLoop, ht, if_pos] at hop
      simp at hop
      rcases hop with h | h | h | h | h | h | h | h | h
      all_goals first
        | (subst h; simp [bgColorOf])
        | (exact ih _ _ op h)
    · simp only [buildLoop, ht] at hop
      simp at hop
      rcases hop with h | h | h
      all_goals first
        | (subst h; simp [bgColorOf])
        | (exact ih _ _ op h)

/-- The measure pass only reads. -/
theorem measureLoop_reads (env : Env) :
    ∀ entries : List HighlightEntry,
      ∀ op ∈ (measureLoop env entries).2, op.isRead = true := by
  intro entries
  induction entries with
  | nil => intro op hop; simp [measureLoop] at hop
  | cons entry rest ih =>
    intro op hop
    simp only [measureLoop, List.mem_append] at hop
    rcases hop with h | h
    · unfold measureEntry at h
      cases hto : entry.tooltipElement with
      | none =>
        rw [hto] at h
        simp at h
        subst h; rfl
      | some tid =>
        rw [hto] at h
        simp at h
        rcases h with h | h | h <;> (subst h; rfl)
    · exact ih op h

/-- The measure pass reads each entry's target box once, in order. -/
theorem measureLoop_boxReads (env : Env) :
    ∀ entries : List HighlightEntry,
      ((measureLoop env entries).2).filterMap boxReadTarget =
        entries.map (fun e => e.targetElement) := by
  intro entries
  induction entries with
  | nil => simp [measureLoop]
  | cons entry rest ih =>
    simp only [measureLoop, List.filterMap_append, List.map_cons, ih]
    unfold measureEntry
    cases hto : entry.tooltipElement <;> simp [boxReadTarget]

/-- The paint pass only writes styles. -/
theorem paintLoop_style (c : String) :
    ∀ entries : List HighlightEntry,
      ∀ op ∈ paintLoop c entries, op.isStyleWrite = true := by
  intro entries
  induction entries with
  | nil => intro op hop; simp [paintLoop] at hop
  | cons entry rest ih =>
    intro op hop
    simp only [paintLoop, List.mem_append] at hop
    rcases hop with h | h
    · unfold paintEntry at h
      cases hto : entry.tooltipElement with
      | none =>
        rw [hto] at h
        simp at h
        rcases h with h | h | h | h | h | h <;> (subst h; rfl)
      | some tid =>
        rw [hto] at h
        simp at h
        rcases h with h | h | h | h | h | h | h | h <;> (subst h; rfl)
    · exact ih op h

/-- Every background color the paint pass writes is the resolved color. -/
theorem paintLoop_bg (c : String) :
    ∀ entries : List HighlightEntry,
      ∀ v ∈ (paintLoop c entries).filterMap bgColorOf, v = c := by
  intro entries
  induction entries with
  | nil => intro v hv; simp [paintLoop] at hv
  | cons entry rest ih =>
    intro v hv
    simp only [paintLoop, List.filterMap_append, List.mem_append] at hv
    rcases hv with h | h
    · unfold paintEntry at h
      cases hto : entry.tooltipElement with
      | none =>
        rw [hto] at h
        simp [bgColorOf, pxText] at h
        exact h
      | some tid =>
        rw [hto] at h
        simp [bgColorOf, pxText] at h
        exact h
    · exact ih v h

/-- The paint pass writes at least one background color per entry (so a
rebuild with a nonempty registry does paint). -/
theorem paintLoop_bg_mem (c : String) (entry : HighlightEntry)
    (rest : List HighlightEntry) :
    DOMOp.setStyle entry.highlightElement "backgroundColor" c ∈
      paintLoop c (entry :: rest) := by
  simp only [paintLoop, List.mem_append]
  left
  unfold paintEntry
  cases hto : entry.tooltipElement <;> simp

/-- The first removal of a nonempty teardown. -/
theorem removeOps_head_mem (entry : HighlightEntry) (rest : List HighlightEntry) :
    DOMOp.removeElement entry.highlightElement ∈ removeOps (entry :: rest) := by
  rw [removeOps]
  exact List.mem_append_left _ (List.mem_cons_self _ _)

/-- A nonempty build pass creates its first visual box element. -/
theorem buildLoop_create_mem (t : Option String) (n : Nat) (e : Nat) (es : List Nat)
    (i nid : Nat) :
    DOMOp.createElement nid "x-pw-highlight" ∈ (buildLoop t n (e :: es) i nid).2.2 := by
  by_cases ht : truthy t = true <;> simp [buildLoop, ht]

/-- C1: an `update(elements, options)` call performs no DOM mutation and
leaves the registry unchanged if and only if the up-to-date condition
holds: matching length, matching stored tooltip text, positional target
identity, a recorded box in every entry, and fresh `top`/`right`/
`bottom`/`left` equal to the recorded ones.  The second conjunct states
the consequence: every completed call establishes that condition for
the same elements, options and geometry, so an identical second call is
a no-op, while any violation of the condition takes the teardown-and-
rebuild path. -/
theorem update_noop_iff_upToDate (env : Env) (st : HighlightState)
    (elements : List Nat) (options : HighlightOptions) :
    (((innerUpdateHighlight env st elements options).1.highlightEntries =
        st.highlightEntries ∧
      ∀ op ∈ (innerUpdateHighlight env st elements options).2, op.isRead = true) ↔
        upToDateSpec env st elements options.tooltipText) ∧
    upToDateSpec env (innerUpdateHighlight env st elements options).1 elements
      options.tooltipText := by
  refine ⟨⟨?_, ?_⟩, update_upToDateSpec env st elements options⟩
  · rintro ⟨hreg, hreads⟩
    cases hb : (highlightIsUpToDate env st elements options.tooltipText).1 with
    | true => exact (highlightIsUpToDate_true_iff env st elements options.tooltipText).mp hb
    | false =>
      exfalso
      rw [innerUpdate_rebuild env st elements options hb] at hreads
      cases hE : st.highlightEntries with
      | cons entry rest =>
        have hmem : DOMOp.removeElement entry.highlightElement ∈
            (highlightIsUpToDate env st elements options.tooltipText).2 ++
              removeOps st.highlightEntries ++
              (buildLoop options.tooltipText elements.length elements 0 st.nextId).2.2 ++
              (measureLoop env
                (buildLoop options.tooltipText elements.length elements 0 st.nextId).1).2 ++
              paintLoop (resolveColor options.color elements.length)
                (measureLoop env
                  (buildLoop options.tooltipText elements.length elements 0 st.nextId).1).1 := by
          rw [hE]
          simp only [List.mem_append]
          exact Or.inl (Or.inl (Or.inl (Or.inr (removeOps_head_mem entry rest))))
        have := hreads _ hmem
        simp [DOMOp.isRead] at this
      | nil =>
        cases hEl : elements with
        | nil =>
          simp [highlightIsUpToDate, upToDateLoop, hE, hEl] at hb
        | cons e es =>
          have hmem : DOMOp.createElement st.nextId "x-pw-highlight" ∈
              (highlightIsUpToDate env st elements options.tooltipText).2 ++
                removeOps st.highlightEntries ++
                (buildLoop options.tooltipText elements.length elements 0 st.nextId).2.2 ++
                (measureLoop env
                  (buildLoop options.tooltipText elements.length elements 0 st.nextId).1).2 ++
                paintLoop (resolveColor options.color elements.length)
                  (measureLoop env
                    (buildLoop options.tooltipText elements.length elements 0 st.nextId).1).1 := by
            rw [hEl]
            simp only [List.mem_append]
            exact Or.inl (Or.inl (Or.inr (buildLoop_create_mem _ _ e es 0 st.nextId)))
          have := hreads _ hmem
          simp [DOMOp.isRead] at this
  · intro hspec
    have hch := (highlightIsUpToDate_true_iff env st elements options.tooltipText).mpr hspec
    rw [innerUpdate_noop env st elements options hch]
    exact ⟨rfl, highlightIsUpToDate_reads env st elements options.tooltipText⟩

/-- C6: after every completed update call the registry's targets are
exactly the call's elements, in order (so its length matches and no
stale entry survives), on the short-circuit path and on the rebuild
path alike. -/
theorem update_registry_matches (env : Env) (st : HighlightState)
    (elements : List Nat) (options : HighlightOptions) :
    ((innerUpdateHighlight env st elements options).1.highlightEntries).map
      (fun entry => entry.targetElement) = elements := by
  cases hb : (highlightIsUpToDate env st elements options.tooltipText).1 with
  | true =>
    rw [innerUpdate_noop env st elements options hb]
    have hspec := (highlightIsUpToDate_true_iff env st elements options.tooltipText).mp hb
    apply List.ext_getElem
    · rw [List.length_map]
      exact hspec.1.symm
    · intro i hi1 hi2
      rw [List.getElem_map]
      have h2 : i < st.highlightEntries.length := by
        rw [List.length_map] at hi1
        exact hi1
      have := (hspec.2 i hi2 h2).2.1
      rw [List.get_eq_getElem, List.get_eq_getElem] at this
      exact this.symm
  | false =>
    rw [innerUpdate_rebuild env st elements options hb]
    exact rebuild_entries_target env options.tooltipText elements.length elements 0 st.nextId

/-- C9: `firstBox` returns the first registry entry's recorded box and
`none` on an empty registry (or an unmeasured first entry, since it
returns exactly that entry's optional box); and after every completed
update call every registry entry has a recorded box, so the paint
pass's unconditional `entry.box!` is never absent. -/
theorem firstBox_spec (env : Env) (st : HighlightState) (elements : List Nat)
    (options : HighlightOptions) :
    (st.highlightEntries = [] → firstBox st = none) ∧
    (∀ entry rest, st.highlightEntries = entry :: rest → firstBox st = entry.box) ∧
    (∀ entry ∈ (innerUpdateHighlight env st elements options).1.highlightEntries,
      entry.box.isSome = true) := by
  refine ⟨?_, ?_, ?_⟩
  · intro h
    simp [firstBox, h]
  · intro entry rest h
    simp [firstBox, h]
  · intro entry hmem
    cases hb : (highlightIsUpToDate env st elements options.tooltipText).1 with
    | true =>
      rw [innerUpdate_noop env st elements options hb] at hmem
      have hspec := (highlightIsUpToDate_true_iff env st elements options.tooltipText).mp hb
      rcases List.mem_iff_get.mp hmem with ⟨⟨i, hi⟩, hget⟩
      have h1 : i < elements.length := by rw [hspec.1]; exact hi
      rcases (hspec.2 i h1 hi).2.2 with ⟨oldBox, hbox, _⟩
      rw [hget] at hbox
      rw [hbox]
      rfl
    | false =>
      rw [innerUpdate_rebuild env st elements options hb] at hmem
      rw [measureLoop_fst] at hmem
      rcases List.mem_map.mp hmem with ⟨b, _, hpb⟩
      rw [← hpb, measureEntry_box]
      rfl

/-- C10: two consecutive update calls with the same elements, the same
tooltip text and unchanged geometry but different colors leave the
second call a pure no-op — the up-to-date check does not compare
color, so no teardown, rebuild or DOM write happens and the boxes keep
the first call's color. -/
theorem update_color_change_noop (env : Env) (st : HighlightState)
    (elements : List Nat) (options1 options2 : HighlightOptions)
    (htext : options1.tooltipText = options2.tooltipText)
    (hcolor : options1.color ≠ options2.color) :
    (innerUpdateHighlight env (innerUpdateHighlight env st elements options1).1
        elements options2).1 = (innerUpdateHighlight env st elements options1).1 ∧
    ∀ op ∈ (innerUpdateHighlight env (innerUpdateHighlight env st elements options1).1
        elements options2).2, op.isRead = true := by
  have hspec := update_upToDateSpec env st elements options1
  rw [htext] at hspec
  have hch := (highlightIsUpToDate_true_iff env
    (innerUpdateHighlight env st elements options1).1 elements options2.tooltipText).mpr hspec
  rw [innerUpdate_noop env (innerUpdateHighlight env st elements options1).1
    elements options2 hch]
  exact ⟨rfl, highlightIsUpToDate_reads env _ elements options2.tooltipText⟩

/-- C10 witness: with one element and unchanged geometry, changing only
the color between two calls leaves the second call read-only. -/
theorem update_color_change_noop_witness :
    (innerUpdateHighlight cenv
        (innerUpdateHighlight cenv cst0 [4] { color := some "#111" }).1 [4]
        { color := some "#222" }).1 =
      (innerUpdateHighlight cenv cst0 [4] { color := some "#111" }).1 ∧
    ∀ op ∈ (innerUpdateHighlight cenv
        (innerUpdateHighlight cenv cst0 [4] { color := some "#111" }).1 [4]
        { color := some "#222" }).2, op.isRead = true :=
  update_color_change_noop cenv cst0 [4] { color := some "#111" }
    { color := some "#222" } rfl (by decide)

/-- Every removal an entry owes is in the teardown of any registry
containing the entry. -/
theorem removeOps_mem_of_mem :
    ∀ entries : List HighlightEntry, ∀ entry ∈ entries,
      ∀ op ∈ entryRemoveOps entry, op ∈ removeOps entries := by
  intro entries
  induction entries with
  | nil => intro entry h; simp at h
  | cons b bs ih =>
    intro entry h op hop
    rw [removeOps, List.mem_append]
    rcases List.mem_cons.mp h with h2 | h2
    · subst h2
      exact Or.inl hop
    · exact Or.inr (ih entry h2 op hop)

/-- C8: `clearHighlight` removes every owned visual box and tooltip
element and empties the registry; running it again after itself does
nothing more (idempotence), and on an already-empty registry it is a
complete no-op. -/
theorem clearHighlight_spec (st : HighlightState) :
    (clearHighlight st).1.highlightEntries = [] ∧
    (∀ entry ∈ st.highlightEntries,
      DOMOp.removeElement entry.highlightElement ∈ (clearHighlight st).2 ∧
      ∀ tid, entry.tooltipElement = some tid →
        DOMOp.removeElement tid ∈ (clearHighlight st).2) ∧
    clearHighlight (clearHighlight st).1 = ((clearHighlight st).1, []) ∧
    (st.highlightEntries = [] → clearHighlight st = (st, [])) := by
  obtain ⟨entries, nid⟩ := st
  refine ⟨rfl, ?_, rfl, ?_⟩
  · intro entry hmem
    constructor
    · exact removeOps_mem_of_mem entries entry hmem _
        (List.mem_cons_self _ _)
    · intro tid htid
      apply removeOps_mem_of_mem entries entry hmem
      unfold entryRemoveOps
      rw [htid]
      simp
  · intro h
    subst h
    rfl

/-- A list on which the extractor always fails filters to nothing. -/
theorem filterMap_none {α β : Type} (f : α → Option β) :
    ∀ l : List α, (∀ a ∈ l, f a = none) → l.filterMap f = [] := by
  intro l
  induction l with
  | nil => intro _; rfl
  | cons a as ih =>
    intro h
    rw [List.filterMap_cons, h a (List.mem_cons_self a as)]
    exact ih fun b hb => h b (List.mem_cons_of_mem a hb)

/-- When no requested element is in the registry, the up-to-date check
fails without reading anything (its first comparison already misses),
except in the degenerate case of an empty request on an empty
registry. -/
theorem check_fresh (env : Env) (st : HighlightState) (elements : List Nat)
    (t : Option String)
    (h : ∀ e ∈ elements,
      e ∉ st.highlightEntries.map (fun entry => entry.targetElement))
    (hne : ¬(elements = [] ∧ st.highlightEntries = [])) :
    highlightIsUpToDate env st elements t = (false, []) := by
  cases hEl : elements with
  | nil =>
    cases hE : st.highlightEntries with
    | nil => exact absurd ⟨hEl, hE⟩ hne
    | cons entry rest => simp [highlightIsUpToDate, hE]
  | cons e es =>
    cases hE : st.highlightEntries with
    | nil => simp [highlightIsUpToDate, hE]
    | cons entry rest =>
      by_cases hlen : (e :: es).length = (entry :: rest).length
      · have he : e ≠ entry.targetElement := by
          have hni := h e (by rw [hEl]; exact List.mem_cons_self e es)
          rw [hE, List.map_cons] at hni
          exact fun hc => hni (by rw [hc]; exact List.mem_cons_self _ _)
        unfold highlightIsUpToDate
        rw [hE, if_neg (fun hc => hc hlen)]
        by_cases h1 : t = entry.tooltipText <;> simp [upToDateLoop, h1, he]
      · unfold highlightIsUpToDate
        rw [hE, if_pos hlen]

/-- C3: an update call whose targets are all new (none in the current
registry) performs one bounding-box read per target — the whole trace's
box reads are exactly the elements, in order — and its trace splits
into a first block of writes, then a block of geometry reads, then a
final block of style writes, with no write between two reads: the
single forced layout of the three-phase design. -/
theorem update_phase_ordering (env : Env) (st : HighlightState)
    (elements : List Nat) (options : HighlightOptions)
    (h : ∀ e ∈ elements,
      e ∉ st.highlightEntries.map (fun entry => entry.targetElement)) :
    ∃ w1 r w2,
      (innerUpdateHighlight env st elements options).2 = w1 ++ r ++ w2 ∧
      (∀ op ∈ w1, op.isRead = false) ∧
      (∀ op ∈ r, op.isRead = true) ∧
      (∀ op ∈ w2, op.isStyleWrite = true) ∧
      ((innerUpdateHighlight env st elements options).2).filterMap boxReadTarget =
        elements := by
  by_cases hdeg : elements = [] ∧ st.highlightEntries = []
  · have hch : (highlightIsUpToDate env st elements options.tooltipText).1 = true := by
      simp [highlightIsUpToDate, hdeg.1, hdeg.2, upToDateLoop]
    have htr : (highlightIsUpToDate env st elements options.tooltipText).2 = [] := by
      simp [highlightIsUpToDate, hdeg.1, hdeg.2, upToDateLoop]
    rw [innerUpdate_noop env st elements options hch]
    refine ⟨[], [], [], ?_, ?_, ?_, ?_, ?_⟩
    · simp [htr]
    · intro op hop; simp at hop
    · intro op hop; simp at hop
    · intro op hop; simp at hop
    · rw [htr, hdeg.1]
      rfl
  · have hck := check_fresh env st elements options.tooltipText h hdeg
    have hch : (highlightIsUpToDate env st elements options.tooltipText).1 = false := by
      rw [hck]
    have htr : (highlightIsUpToDate env st elements options.tooltipText).2 = [] := by
      rw [hck]
    rw [innerUpdate_rebuild env st elements options hch]
    refine ⟨removeOps st.highlightEntries ++
        (buildLoop options.tooltipText elements.length elements 0 st.nextId).2.2,
      (measureLoop env
        (buildLoop options.tooltipText elements.length elements 0 st.nextId).1).2,
      paintLoop (resolveColor options.color elements.length)
        (measureLoop env
          (buildLoop options.tooltipText elements.length elements 0 st.nextId).1).1,
      ?_, ?_, ?_, ?_, ?_⟩
    · rw [htr]
      simp [List.append_assoc]
    · intro op hop
      rcases List.mem_append.mp hop with h2 | h2
      · exact removeOps_not_read st.highlightEntries op h2
      · exact buildLoop_not_read options.tooltipText elements.length elements 0 st.nextId op h2
    · exact measureLoop_reads env _
    · exact paintLoop_style _ _
    · rw [htr]
      simp only [List.nil_append, List.filterMap_append]
      rw [filterMap_none boxReadTarget _ (fun op hop =>
          boxReadTarget_none_of_write op (removeOps_not_read st.highlightEntries op hop)),
        filterMap_none boxReadTarget _ (fun op hop =>
          boxReadTarget_none_of_write op
            (buildLoop_not_read options.tooltipText elements.length elements 0 st.nextId op hop)),
        filterMap_none boxReadTarget _ (fun op hop =>
          boxReadTarget_none_of_write op
            (styleWrite_not_read op (paintLoop_style _ _ op hop))),
        measureLoop_boxReads, buildLoop_map_target]
      simp

/-- C3 witness: one fresh target on an empty registry. -/
theorem update_phase_ordering_witness :
    ∃ w1 r w2,
      (innerUpdateHighlight cenv cst0 [5] {}).2 = w1 ++ r ++ w2 ∧
      (∀ op ∈ w1, op.isRead = false) ∧
      (∀ op ∈ r, op.isRead = true) ∧
      (∀ op ∈ w2, op.isStyleWrite = true) ∧
      ((innerUpdateHighlight cenv cst0 [5] {}).2).filterMap boxReadTarget = [5] :=
  update_phase_ordering cenv cst0 [5] {} (by decide)

/-- A style write assigns no text. -/
theorem setTextOf_none_of_style (op : DOMOp) (h : op.isStyleWrite = true) :
    setTextOf op = none := by
  cases op <;> simp [DOMOp.isStyleWrite] at h ⊢ <;> rfl

/-- The texts the build pass writes, when tooltip text is requested: the
requested text with the multiplicity suffix at each successive index. -/
theorem buildLoop_setTexts (t : Option String) (n : Nat) (ht : truthy t = true) :
    ∀ (es : List Nat) (i nid : Nat),
      ((buildLoop t n es i nid).2.2).filterMap setTextOf =
        (List.range es.length).map (fun j => t.getD "" ++ tooltipSuffix (i + j) n) := by
  intro es
  induction es with
  | nil => intro i nid; simp [buildLoop]
  | cons e es ih =>
    intro i nid
    simp only [buildLoop, ht, if_pos]
    rw [List.filterMap_append, List.filterMap_append, ih (i + 1) (nid + 2)]
    have h1 : ([DOMOp.createElement nid "x-pw-highlight",
        DOMOp.appendChild nid] : List DOMOp).filterMap setTextOf = [] := rfl
    have h2 : ([DOMOp.createElement (nid + 1) "x-pw-tooltip",
        DOMOp.appendChild (nid + 1),
        DOMOp.setText (nid + 1) (t.getD "" ++ tooltipSuffix i n),
        DOMOp.setStyle (nid + 1) "top" "0", DOMOp.setStyle (nid + 1) "left" "0",
        DOMOp.setStyle (nid + 1) "display" "flex"] : List DOMOp).filterMap setTextOf =
        [t.getD "" ++ tooltipSuffix i n] := rfl
    rw [h1, h2, List.nil_append, List.length_cons, List.range_succ_eq_map,
      List.map_cons, List.map_map, List.singleton_append]
    congr 1
    have hfun : (fun j => t.getD "" ++ tooltipSuffix (i + 1 + j) n) =
        ((fun j => t.getD "" ++ tooltipSuffix (i + j) n) ∘ Nat.succ) := by
      funext j
      show _ = t.getD "" ++ tooltipSuffix (i + Nat.succ j) n
      have harg : i + 1 + j = i + Nat.succ j := by omega
      rw [harg]
    rw [hfun]

/-- C4: on the rebuild path with requested tooltip text `t` (nonempty,
i.e. truthy), the texts written to tooltip elements are, in order and
one per element, `t` with the suffix " [i of N]" (1-based `i`) when
`N > 1` and exactly `t` when `N ≤ 1`. -/
theorem update_tooltip_texts (env : Env) (st : HighlightState) (elements : List Nat)
    (options : HighlightOptions) (t : String)
    (ht : options.tooltipText = some t) (hne : t ≠ "")
    (hreb : (highlightIsUpToDate env st elements options.tooltipText).1 = false) :
    ((innerUpdateHighlight env st elements options).2).filterMap setTextOf =
      (List.range elements.length).map (fun i =>
        t ++ (if elements.length > 1 then
          " [" ++ toString (i + 1) ++ " of " ++ toString elements.length ++ "]"
        else "")) := by
  rw [innerUpdate_rebuild env st elements options hreb]
  simp only [List.filterMap_append]
  rw [filterMap_none setTextOf _ (fun op hop => setTextOf_none_of_read op
        (highlightIsUpToDate_reads env st elements options.tooltipText op hop)),
    filterMap_none setTextOf _ (removeOps_setText_none st.highlightEntries),
    filterMap_none setTextOf _ (fun op hop => setTextOf_none_of_read op
      (measureLoop_reads env _ op hop)),
    filterMap_none setTextOf _ (fun op hop => setTextOf_none_of_style op
      (paintLoop_style _ _ op hop))]
  have htt : truthy options.tooltipText = true := by
    rw [ht]
    simpa [truthy] using hne
  rw [buildLoop_setTexts options.tooltipText elements.length htt elements 0 st.nextId]
  simp [ht, tooltipSuffix]

/-- C4 witness: three targets with text "foo" produce
"foo [1 of 3]", "foo [2 of 3]", "foo [3 of 3]". -/
theorem update_tooltip_texts_witness :
    ((innerUpdateHighlight cenv cst0 [1, 2, 3] { tooltipText := some "foo" }).2).filterMap
        setTextOf =
      (List.range ([1, 2, 3] : List Nat).length).map (fun i =>
        "foo" ++ (if ([1, 2, 3] : List Nat).length > 1 then
          " [" ++ toString (i + 1) ++ " of " ++ toString ([1, 2, 3] : List Nat).length ++ "]"
        else "")) :=
  update_tooltip_texts cenv cst0 [1, 2, 3] { tooltipText := some "foo" } "foo" rfl
    (by decide) (by decide)

/-- Every background color any update call writes is the resolved color. -/
theorem update_bg_colors (env : Env) (st : HighlightState) (elements : List Nat)
    (options : HighlightOptions) :
    ∀ v ∈ ((innerUpdateHighlight env st elements options).2).filterMap bgColorOf,
      v = resolveColor options.color elements.length := by
  cases hb : (highlightIsUpToDate env st elements options.tooltipText).1 with
  | true =>
    rw [innerUpdate_noop env st elements options hb]
    rw [filterMap_none bgColorOf _ (fun op hop => bgColorOf_none_of_read op
      (highlightIsUpToDate_reads env st elements options.tooltipText op hop))]
    intro v hv
    simp at hv
  | false =>
    rw [innerUpdate_rebuild env st elements options hb]
    simp only [List.filterMap_append]
    rw [filterMap_none bgColorOf _ (fun op hop => bgColorOf_none_of_read op
        (highlightIsUpToDate_reads env st elements options.tooltipText op hop)),
      filterMap_none bgColorOf _ (removeOps_bg_none st.highlightEntries),
      filterMap_none bgColorOf _
        (buildLoop_bg_none options.tooltipText elements.length elements 0 st.nextId),
      filterMap_none bgColorOf _ (fun op hop => bgColorOf_none_of_read op
        (measureLoop_reads env _ op hop))]
    intro v hv
    simp only [List.nil_append, List.append_nil] at hv
    exact paintLoop_bg _ _ v hv

/-- C5 as amended: every painted background color is the resolved color;
a supplied non-empty color wins; an absent or empty color falls back to
the count-based default; and `maskElements` paints the supplied color
when non-empty and `#F0F` when the color is unspecified or the empty
string, regardless of element count. -/
theorem color_resolution_amended (env : Env) (st : HighlightState)
    (elements : List Nat) (options : HighlightOptions) (c : String) :
    (∀ v ∈ ((innerUpdateHighlight env st elements options).2).filterMap bgColorOf,
      v = resolveColor options.color elements.length) ∧
    (options.color = some c → c ≠ "" →
      resolveColor options.color elements.length = c) ∧
    ((options.color = none ∨ options.color = some "") →
      resolveColor options.color elements.length =
        (if elements.length > 1 then "#f6b26b7f" else "#6fa8dc7f")) ∧
    (∀ v ∈ ((maskElements env st elements none).2).filterMap bgColorOf, v = "#F0F") ∧
    (∀ v ∈ ((maskElements env st elements (some "")).2).filterMap bgColorOf,
      v = "#F0F") ∧
    (c ≠ "" →
      ∀ v ∈ ((maskElements env st elements (some c)).2).filterMap bgColorOf, v = c) := by
  refine ⟨update_bg_colors env st elements options, ?_, ?_, ?_, ?_, ?_⟩
  · intro h hc
    rw [h]
    have : truthy (some c) = true := by simpa [truthy] using hc
    simp [resolveColor, this]
  · intro h
    rcases h with h | h <;> (rw [h]; simp [resolveColor, truthy])
  · intro v hv
    have h0 : truthy (none : Option String) = false := rfl
    unfold maskElements at hv
    rw [h0] at hv
    have := update_bg_colors env st elements
      { tooltipText := none, color := some "#F0F" } v (by simpa using hv)
    rw [this]
    have ht : truthy (some "#F0F") = true := by decide
    simp [resolveColor, ht]
  · intro v hv
    have h0 : truthy (some "") = false := rfl
    unfold maskElements at hv
    rw [h0] at hv
    have := update_bg_colors env st elements
      { tooltipText := none, color := some "#F0F" } v (by simpa using hv)
    rw [this]
    have ht : truthy (some "#F0F") = true := by decide
    simp [resolveColor, ht]
  · intro hc v hv
    have ht : truthy (some c) = true := by simpa [truthy] using hc
    unfold maskElements at hv
    rw [ht] at hv
    have := update_bg_colors env st elements
      { tooltipText := none, color := some c } v (by simpa using hv)
    rw [this]
    simp [resolveColor, ht]

/-- C5 counterexample: with `color` supplied as the empty string and one
element, the painted color is the single-element default, not the
supplied value. -/
theorem update_color_empty_cex :
    (DOMOp.setStyle 0 "backgroundColor" "#6fa8dc7f" ∈
      (innerUpdateHighlight cenv cst0 [7] { color := some "" }).2) ∧
    ¬ (DOMOp.setStyle 0 "backgroundColor" "" ∈
      (innerUpdateHighlight cenv cst0 [7] { color := some "" }).2) := by
  decide

/-- Running the loop body once under the scheduling invariant leaves
exactly one pending callback, freshly tokened and tracking the given
selector. -/
theorem runHighlightOnRaf_state (lenv : LoopEnv) (sel : String) (rst : RafState)
    (hinv : rafInv rst) :
    (runHighlightOnRaf lenv sel rst).1.pending = [(rst.nextToken, sel)] ∧
    (runHighlightOnRaf lenv sel rst).1.rafRequest = some rst.nextToken ∧
    (runHighlightOnRaf lenv sel rst).1.nextToken = rst.nextToken + 1 := by
  have hp1 : (match rst.rafRequest with
      | some tk => cancelAnimationFrame rst.pending tk
      | none => rst.pending) = [] := by
    cases hr : rst.rafRequest with
    | none =>
      cases hp : rst.pending with
      | nil => rfl
      | cons p ps =>
        exfalso
        have := hinv.2 p (by rw [hp]; exact List.mem_cons_self _ _)
        rw [hr] at this
        exact Option.noConfusion this
    | some tk =>
      unfold cancelAnimationFrame
      apply List.filter_eq_nil.mpr
      intro p hp
      have h := hinv.2 p hp
      rw [hr] at h
      have h2 : p.1 = tk := (Option.some.inj h).symm
      simp [h2]
  unfold runHighlightOnRaf
  rw [hp1]
  simp

/-- C7: under the scheduling invariant (at most one pending callback,
and the stored request token owns it), every `start` and every frame
firing preserves the invariant; `start(selA)` followed by `start(selB)`
leaves exactly the one pending callback tracking `selB`; and each
iteration performs exactly one update call, with the selector's matches
and the locator-generated tooltip text. -/
theorem raf_single_callback (lenv : LoopEnv) (rst : RafState) (selA selB : String)
    (hinv : rafInv rst) :
    (∀ ev, rafInv (rafStep lenv rst ev).1) ∧
    ((runHighlightOnRaf lenv selB (runHighlightOnRaf lenv selA rst).1).1).pending =
      [((runHighlightOnRaf lenv selA rst).1.nextToken, selB)] ∧
    (∀ sel, (runHighlightOnRaf lenv sel rst).2 =
      [(lenv.querySelectorAll sel,
        { tooltipText :=
            some (lenv.asLocator lenv.language (lenv.stringifySelector sel)) })]) := by
  have hrun : ∀ (sel : String) (r : RafState),
      rafInv r → rafInv (runHighlightOnRaf lenv sel r).1 := by
    intro sel r hr
    rcases runHighlightOnRaf_state lenv sel r hr with ⟨hp, hq, _⟩
    constructor
    · rw [hp]
      simp
    · intro p hmem
      rw [hp] at hmem
      simp at hmem
      rw [hq, hmem]
  refine ⟨?_, ?_, fun sel => rfl⟩
  · intro ev
    cases ev with
    | start sel => exact hrun sel rst hinv
    | fire =>
      cases hp : rst.pending with
      | nil => simpa [rafStep, hp] using hinv
      | cons p ps =>
        obtain ⟨tk, sl⟩ := p
        have hps : ps = [] := by
          have h1 := hinv.1
          rw [hp] at h1
          simpa using h1
        subst hps
        simp only [rafStep, hp]
        exact hrun sl { rst with pending := [] }
          ⟨by simp, fun q hq => by simp at hq⟩
  · have hinv1 : rafInv (runHighlightOnRaf lenv selA rst).1 := hrun selA rst hinv
    exact (runHighlightOnRaf_state lenv selB _ hinv1).1

/-- C7 witness: starting with "a" then "b" from the idle state leaves
one pending callback tracking "b". -/
theorem raf_single_callback_witness :
    (∀ ev, rafInv (rafStep clenv crst0 ev).1) ∧
    ((runHighlightOnRaf clenv "b" (runHighlightOnRaf clenv "a" crst0).1).1).pending =
      [((runHighlightOnRaf clenv "a" crst0).1.nextToken, "b")] ∧
    (∀ sel, (runHighlightOnRaf clenv sel crst0).2 =
      [(clenv.querySelectorAll sel,
        { tooltipText :=
            some (clenv.asLocator clenv.language (clenv.stringifySelector sel)) })]) :=
  raf_single_callback clenv crst0 "a" "b" (by simp [rafInv, crst0])

end Highlight
